import Mathlib

/-!
Verification of the DoReFa-Net quantization core implemented in
`week14_quantization_practice_additional.ipynb`.

The source program is a PyTorch notebook.  Tensors are modelled as lists of
elements of a linear ordered field (instantiated at `ℚ` for the computable
rounding paths and at `ℝ` for the weight-quantization path, which uses
`tanh`).  Machine floats are modelled by exact field arithmetic; `torch.round`
rounds half to even, which is modelled exactly by `round_half_even` below.
Fallible code paths (Python runtime errors such as an unbound local variable,
and float operations whose result is NaN/Inf, i.e. not a well-defined finite
number) return `none`.
-/

/-- The rounding mode of `torch.round`: round to the nearest integer, ties to
the even integer (IEEE round-half-to-even, exact on our field model). -/
def round_half_even {α : Type} [LinearOrderedField α] [FloorRing α] (x : α) : ℤ :=
  if x - ⌊x⌋ < 1/2 then ⌊x⌋
  else if 1/2 < x - ⌊x⌋ then ⌊x⌋ + 1
  else if ⌊x⌋ % 2 = 0 then ⌊x⌋ else ⌊x⌋ + 1

/-- `get_uniform_quantizer(n_bits)`: the `forward` of the inner
`torch.autograd.Function` class `qfn`.  Source:

    if n_bits == 32:
        out_tensor = in_tensor
    elif n_bits == 1:
        out_tensor = torch.sign(in_tensor)
    else:
        n = float(2 ** n_bits - 1)
        out = torch.round(in_tensor * n) / n
    return out

The first two branches assign `out_tensor`, but the function returns `out`,
which is bound only in the final branch; so for `n_bits = 32` and
`n_bits = 1` the call raises `UnboundLocalError` at run time, modelled as
`none`.  In the final branch, when `n = 2 ** n_bits - 1 = 0` (i.e.
`n_bits = 0`) the float division `0.0 / 0.0` yields NaN, modelled as
`none`. -/
def qfn_forward {α : Type} [LinearOrderedField α] [FloorRing α]
    (n_bits : ℤ) (in_tensor : List α) : Option (List α) :=
  if n_bits = 32 then none
  else if n_bits = 1 then none
  else if ((2:α) ^ n_bits - 1) = 0 then none
  else some (in_tensor.map
    (fun v => ((round_half_even (v * ((2:α) ^ n_bits - 1)) : ℤ) : α) / ((2:α) ^ n_bits - 1)))

/-- The `backward` of `qfn`: `grad_input = grad_output.clone(); return grad_input`.
The bit width `n_bits` is in scope (the class closes over it) but unused. -/
def qfn_backward {α : Type} (n_bits : ℤ) (grad_output : List α) : List α :=
  grad_output.map id

/-- `weight_quantize_fn.__init__`: `assert n_bits <= 8 or n_bits == 32`.
Returns whether construction succeeds (the assertion holds). -/
def weight_quantize_fn_init (n_bits : ℤ) : Bool :=
  decide (n_bits ≤ 8 ∨ n_bits = 32)

/-- `activation_quantize_fn.__init__`: the same assertion
`assert n_bits <= 8 or n_bits == 32`. -/
def activation_quantize_fn_init (n_bits : ℤ) : Bool :=
  decide (n_bits ≤ 8 ∨ n_bits = 32)

/-- `weight_quantize_fn.forward`.  Source:

    if self.n_bits == 32:
        weight_q = x
    elif self.n_bits == 1:
        E = x.abs().mean().detach()
        weight_q = self.uniform_q(x / E) * E
    else:
        weight = x.tanh()
        weight = weight / 2 / weight.abs().max() + 0.5
        weight_q = self.uniform_q(weight)
        weight_q = self.value_range * weight_q - (self.value_range + 1) / 2

with `self.value_range = 2 ** n_bits - 1`.  `.detach()` only affects
gradients and is invisible in this value-level model.  Division by a zero
scalar (`E = 0`, or `max |tanh x| = 0`) produces NaN in float arithmetic,
i.e. no well-defined finite output, modelled as `none`; the mean / max of an
empty tensor is likewise not a finite number, and both guards also cover
that case because the fold below returns `0` on the empty list. -/
noncomputable def wq_forward (n_bits : ℤ) (x : List ℝ) : Option (List ℝ) :=
  if n_bits = 32 then some x
  else if n_bits = 1 then
    if ((x.map (fun v => |v|)).sum / (x.length : ℝ)) = 0 then none
    else (qfn_forward 1 (x.map (fun v => v / ((x.map (fun w => |w|)).sum / (x.length : ℝ))))).map
      (fun l => l.map (fun q => q * ((x.map (fun w => |w|)).sum / (x.length : ℝ))))
  else
    if (((x.map Real.tanh).map (fun v => |v|)).foldr max 0) = 0 then none
    else
      (qfn_forward n_bits ((x.map Real.tanh).map
          (fun v => v / 2 / (((x.map Real.tanh).map (fun w => |w|)).foldr max 0) + 0.5))).map
        (fun l => l.map (fun q => ((2:ℝ) ^ n_bits - 1) * q - (((2:ℝ) ^ n_bits - 1) + 1) / 2))

/-- `activation_quantize_fn.forward`.  Source:

    if self.n_bits == 32:
        activation_q = x
    else:
        activation_q = (2 ** self.n_bits - 1) * self.uniform_q(torch.clamp(x, 0, 1))

`torch.clamp(x, 0, 1)` is `max 0 (min v 1)` elementwise. -/
def aq_forward {α : Type} [LinearOrderedField α] [FloorRing α]
    (n_bits : ℤ) (x : List α) : Option (List α) :=
  if n_bits = 32 then some x
  else (qfn_forward n_bits (x.map (fun v => max 0 (min v 1)))).map
    (fun l => l.map (fun q => ((2:α) ^ n_bits - 1) * q))

section RoundLemmas

lemma round_half_even_intCast {α : Type} [LinearOrderedField α] [FloorRing α]
    (m : ℤ) : round_half_even ((m : ℤ) : α) = m := by
  simp [round_half_even]

lemma round_half_even_nonneg {α : Type} [LinearOrderedField α] [FloorRing α]
    {x : α} (hx : 0 ≤ x) : 0 ≤ round_half_even x := by
  have h0 : 0 ≤ ⌊x⌋ := Int.floor_nonneg.mpr hx
  unfold round_half_even
  split_ifs <;> omega

lemma round_half_even_le_int {α : Type} [LinearOrderedField α] [FloorRing α]
    {x : α} {c : ℤ} (hx : x ≤ (c : α)) : round_half_even x ≤ c := by
  have hf : ⌊x⌋ ≤ c := by
    have := Int.floor_le_floor hx
    simpa using this
  have hlt : (1:α)/2 ≤ x - ⌊x⌋ → ⌊x⌋ < c := by
    intro h
    by_contra hcon
    have hfc : ⌊x⌋ = c := le_antisymm hf (by omega)
    have hx2 : (c : α) + 1/2 ≤ x := by
      have := add_le_add_left h ((⌊x⌋ : α))
      rw [hfc] at this
      linarith
    linarith
  unfold round_half_even
  split_ifs with h1 h2 h3
  · exact hf
  · have := hlt (le_of_lt h2)
    omega
  · exact hf
  · have := hlt (le_of_not_lt h1)
    omega

end RoundLemmas

section QfnLemmas

/-- The number of quantization steps `2 ^ k - 1` is positive once `2 ≤ k`. -/
lemma n_levels_pos {α : Type} [LinearOrderedField α] (k : ℤ) (h1 : 2 ≤ k) :
    (0:α) < (2:α) ^ k - 1 := by
  have h4 : (1:α) < (2:α) ^ k := by
    calc (1:α) < (2:α) ^ (1:ℤ) := by norm_num
    _ ≤ (2:α) ^ k := zpow_le_zpow_right₀ (by norm_num) (by omega)
  linarith

/-- For bit widths in the working range the quantizer takes the rounding
branch and returns the rounded grid values. -/
lemma qfn_forward_mid {α : Type} [LinearOrderedField α] [FloorRing α]
    (k : ℤ) (h1 : 2 ≤ k) (h2 : k ≤ 8) (x : List α) :
    qfn_forward k x = some (x.map
      (fun v => ((round_half_even (v * ((2:α) ^ k - 1)) : ℤ) : α) / ((2:α) ^ k - 1))) := by
  have hn : ((2:α) ^ k - 1) ≠ 0 := ne_of_gt (n_levels_pos k h1)
  unfold qfn_forward
  rw [if_neg (by omega), if_neg (by omega), if_neg hn]

/-- For nonnegative `k`, the integer power `2 ^ k` is a natural power,
letting integer rounding bounds transfer. -/
lemma two_zpow_toNat (k : ℤ) (hk : 0 ≤ k) :
    (2:ℚ) ^ k = (2:ℚ) ^ k.toNat := by
  conv_lhs => rw [← Int.toNat_of_nonneg hk]
  rw [zpow_natCast]

end QfnLemmas

/-- C1: for every bit width `k ∈ [2,8]` and every input tensor `x`, the
uniform quantizer forward returns `round(x * n) / n` elementwise with
`n = 2 ^ k - 1` (rounding half to even, as `torch.round` does), and for
inputs in `[0,1]` every output element lies on the uniform grid
`{0, 1/n, ..., n/n}`. -/
theorem C1_uniform_grid (k : ℤ) (hk : 2 ≤ k ∧ k ≤ 8) (x : List ℚ) :
    qfn_forward k x = some (x.map
      (fun v => ((round_half_even (v * ((2:ℚ) ^ k - 1)) : ℤ) : ℚ) / ((2:ℚ) ^ k - 1))) ∧
    ∀ v ∈ x, 0 ≤ v → v ≤ 1 → ∃ m : ℤ, 0 ≤ m ∧ (m : ℚ) ≤ (2:ℚ) ^ k - 1 ∧
      ((round_half_even (v * ((2:ℚ) ^ k - 1)) : ℤ) : ℚ) / ((2:ℚ) ^ k - 1)
        = (m : ℚ) / ((2:ℚ) ^ k - 1) := by
  have hnpos : (0:ℚ) < (2:ℚ) ^ k - 1 := n_levels_pos k hk.1
  refine ⟨qfn_forward_mid k hk.1 hk.2 x, ?_⟩
  intro v _ h0 h1
  refine ⟨round_half_even (v * ((2:ℚ) ^ k - 1)), ?_, ?_, rfl⟩
  · exact round_half_even_nonneg (mul_nonneg h0 (le_of_lt hnpos))
  · have hkey : (((2:ℤ) ^ k.toNat - 1 : ℤ) : ℚ) = (2:ℚ) ^ k - 1 := by
      push_cast
      rw [two_zpow_toNat k (by omega)]
    have hb : v * ((2:ℚ) ^ k - 1) ≤ ((((2:ℤ) ^ k.toNat - 1 : ℤ)) : ℚ) := by
      rw [hkey]
      calc v * ((2:ℚ) ^ k - 1) ≤ 1 * ((2:ℚ) ^ k - 1) :=
        mul_le_mul_of_nonneg_right h1 (le_of_lt hnpos)
      _ = (2:ℚ) ^ k - 1 := one_mul _
    have hle := round_half_even_le_int hb
    calc ((round_half_even (v * ((2:ℚ) ^ k - 1)) : ℤ) : ℚ)
        ≤ (((2:ℤ) ^ k.toNat - 1 : ℤ) : ℚ) := by exact_mod_cast hle
    _ = (2:ℚ) ^ k - 1 := hkey

/-- C1 witness: at `k = 2`, the input `1/3` is already on the grid
(`1/3 * 3 = 1` rounds to `1`) and the quantizer returns it. -/
theorem C1_uniform_grid_witness :
    qfn_forward 2 [(1:ℚ)/3] = some [(1:ℚ)/3] := by
  have h := (C1_uniform_grid 2 ⟨by norm_num, by norm_num⟩ [(1:ℚ)/3]).1
  rw [h]
  norm_num [round_half_even]

/-- C3: the `backward` of the straight-through estimator returns the upstream
gradient unchanged for every supported bit width. -/
theorem C3_backward_identity (k : ℤ)
    (hk : k = 1 ∨ (2 ≤ k ∧ k ≤ 8) ∨ k = 32) (g : List ℚ) :
    qfn_backward k g = g :=
  List.map_id g

/-- C3 witness at `k = 32` on a concrete gradient. -/
theorem C3_backward_identity_witness :
    qfn_backward 32 [(3:ℚ), -7] = [(3:ℚ), -7] :=
  C3_backward_identity 32 (Or.inr (Or.inr rfl)) [(3:ℚ), -7]

/-- C9: for `k ∈ [2,8]` the uniform quantizer is idempotent: quantizing an
already-quantized tensor at the same bit width returns it unchanged. -/
theorem C9_idempotent (k : ℤ) (hk : 2 ≤ k ∧ k ≤ 8) (x y : List ℚ)
    (h : qfn_forward k x = some y) : qfn_forward k y = some y := by
  have hn : ((2:ℚ) ^ k - 1) ≠ 0 := ne_of_gt (n_levels_pos k hk.1)
  rw [qfn_forward_mid k hk.1 hk.2] at h ⊢
  have hy : y = x.map
      (fun v => ((round_half_even (v * ((2:ℚ) ^ k - 1)) : ℤ) : ℚ) / ((2:ℚ) ^ k - 1)) := by
    exact (Option.some.injEq _ _).mp h.symm
  subst hy
  rw [List.map_map]
  have hfix : (fun v : ℚ => ((round_half_even (v * ((2:ℚ) ^ k - 1)) : ℤ) : ℚ) / ((2:ℚ) ^ k - 1)) ∘
      (fun v : ℚ => ((round_half_even (v * ((2:ℚ) ^ k - 1)) : ℤ) : ℚ) / ((2:ℚ) ^ k - 1)) =
      (fun v : ℚ => ((round_half_even (v * ((2:ℚ) ^ k - 1)) : ℤ) : ℚ) / ((2:ℚ) ^ k - 1)) := by
    funext v
    show ((round_half_even
        ((((round_half_even (v * ((2:ℚ) ^ k - 1)) : ℤ) : ℚ) / ((2:ℚ) ^ k - 1)) * ((2:ℚ) ^ k - 1))
        : ℤ) : ℚ) / ((2:ℚ) ^ k - 1) = _
    rw [div_mul_cancel₀ _ hn, round_half_even_intCast]
  rw [hfix]

/-- C9 witness: at `k = 2`, the grid value `2/3` quantizes to itself, and
requantizing that output returns it unchanged. -/
theorem C9_idempotent_witness :
    qfn_forward 2 [(2:ℚ)/3] = some [(2:ℚ)/3] :=
  C9_idempotent 2 ⟨by norm_num, by norm_num⟩ [(2:ℚ)/3] [(2:ℚ)/3]
    (by norm_num [qfn_forward, round_half_even])

/-- C2 counterexample: the claim says construction fails for every bit width
outside `{1, 2..8, 32}`, but `n_bits = 0` satisfies the assertion
`n_bits <= 8 or n_bits == 32` and both constructors succeed. -/
theorem C2_construction_counterexample :
    weight_quantize_fn_init 0 = true ∧ activation_quantize_fn_init 0 = true ∧
    ¬ ((0:ℤ) = 1 ∨ (2 ≤ (0:ℤ) ∧ (0:ℤ) ≤ 8) ∨ (0:ℤ) = 32) := by
  refine ⟨rfl, rfl, ?_⟩
  decide

/-- C2 (amended): construction of `weight_quantize_fn(k)` and
`activation_quantize_fn(k)` succeeds exactly when `k ≤ 8` or `k = 32`; for
every other integer bit width (`9 ≤ k ≤ 31` or `k ≥ 33`) the assertion fails
fast at construction time. -/
theorem C2_construction_guard (k : ℤ) :
    (weight_quantize_fn_init k = true ∧ activation_quantize_fn_init k = true)
      ↔ (k ≤ 8 ∨ k = 32) := by
  unfold weight_quantize_fn_init activation_quantize_fn_init
  simp

/-- C5: the activation quantizer computes
`(2 ^ k - 1) * Quantizer(clamp(x,0,1), k)` and in particular maps `1.5` to
`255` and `-0.3` to `0` at `k = 8`; but at `k = 1` the inner quantizer raises
`UnboundLocalError` (its `forward` returns the unbound `out`), so the claimed
`k = 1` case produces no output instead of `(2^1-1) * sign(clamp(x,0,1))`. -/
theorem C5_activation_eval :
    aq_forward 1 [(1:ℚ)/2] = none ∧
    aq_forward 8 [(3:ℚ)/2] = some [255] ∧
    aq_forward 8 [(-3:ℚ)/10] = some [0] := by
  refine ⟨rfl, ?_, ?_⟩
  · norm_num [aq_forward, qfn_forward, round_half_even]
  · norm_num [aq_forward, qfn_forward, round_half_even]

/-- C7: the claim says `k = 32` is the identity everywhere; the weight and
activation wrappers short-circuit and are the identity, but the uniform
quantizer itself takes the `n_bits == 32` branch that assigns `out_tensor`
and then returns the unbound `out`, raising `UnboundLocalError` instead of
returning the input. -/
theorem C7_full_precision_eval :
    qfn_forward 32 [(1:ℚ)/2] = none ∧
    wq_forward 32 [(1:ℝ)/2] = some [(1:ℝ)/2] ∧
    aq_forward 32 [(1:ℚ)/2] = some [(1:ℚ)/2] := by
  refine ⟨rfl, ?_, rfl⟩
  simp [wq_forward]

/-- C8: the claim says the uniform quantizer at `k = 1` returns
`sign(x)`; the `n_bits == 1` branch computes `torch.sign(in_tensor)` into
`out_tensor` but the function returns the unbound `out`, raising
`UnboundLocalError`, so no sign tensor is ever produced. -/
theorem C8_sign_branch_eval :
    qfn_forward 1 [(-2:ℚ), 0, 2] = none := rfl

section WeightLemmas

/-- Every member of a list of reals is bounded by the `foldr max 0` the
weight quantizer uses for `weight.abs().max()`. -/
lemma le_foldr_max (l : List ℝ) (a : ℝ) (ha : a ∈ l) : a ≤ l.foldr max 0 := by
  induction l with
  | nil => cases ha
  | cons b t ih =>
      rcases List.mem_cons.mp ha with h | h
      · subst h
        exact le_max_left _ _
      · exact le_trans (ih h) (le_max_right _ _)

lemma foldr_max_replicate_zero (n : ℕ) :
    (List.replicate n (0:ℝ)).foldr max 0 = 0 := by
  induction n with
  | zero => rfl
  | succ m ih => simp [List.replicate_succ, ih]

end WeightLemmas

/-- The claim's inner quantity for C4: the uniform quantizer applied to
`tanh(w) / (2 * max |tanh(w)|) + 1/2` at bit width `k` (the rounding branch,
written as the spec states it). -/
noncomputable def quantize_k_claim (k : ℤ) (x : List ℝ) : List ℝ :=
  x.map (fun v => ((round_half_even (v * ((2:ℝ) ^ k - 1)) : ℤ) : ℝ) / ((2:ℝ) ^ k - 1))

/-- The claim's formula for C4: `(2^k - 1) * q - 2^k / 2` with
`q = Quantizer(tanh(w) / (2 * max|tanh(w)|) + 1/2, k)`, the max taken over
the whole tensor. -/
noncomputable def wq_claim_formula (k : ℤ) (x : List ℝ) : List ℝ :=
  (quantize_k_claim k (x.map (fun v =>
      Real.tanh v / (2 * (((x.map Real.tanh).map (fun w => |w|)).foldr max 0)) + 1/2))).map
    (fun q => ((2:ℝ) ^ k - 1) * q - (2:ℝ) ^ k / 2)

/-- C4: for `k ∈ [2,8]` and a weight tensor with some nonzero `tanh`
element, `weight_quantize_fn(k).forward` returns exactly
`(2^k - 1) * Quantizer(tanh(w)/(2 max|tanh(w)|) + 1/2, k) - 2^k / 2`. -/
theorem C4_weight_quantization (k : ℤ) (hk : 2 ≤ k ∧ k ≤ 8) (x : List ℝ)
    (hx : ∃ v ∈ x, Real.tanh v ≠ 0) :
    wq_forward k x = some (wq_claim_formula k x) := by
  obtain ⟨v, hv, hvne⟩ := hx
  have hMpos : 0 < ((x.map Real.tanh).map (fun w => |w|)).foldr max 0 :=
    lt_of_lt_of_le (abs_pos.mpr hvne)
      (le_foldr_max _ _ (List.mem_map_of_mem _ (List.mem_map_of_mem _ hv)))
  unfold wq_forward
  rw [if_neg (by omega), if_neg (by omega), if_neg (ne_of_gt hMpos)]
  rw [qfn_forward_mid k hk.1 hk.2]
  unfold wq_claim_formula quantize_k_claim
  simp only [Option.map_some', Option.some.injEq, List.map_map]
  apply List.map_congr_left
  intro w _
  simp only [Function.comp_apply]
  rw [div_div]
  have h05 : (0.5 : ℝ) = 1/2 := by norm_num
  rw [h05]
  ring

/-- C4 witness: the singleton weight tensor `[1]` at `k = 2`; `tanh 1 > 0`
discharges the nonzero hypothesis. -/
theorem C4_weight_quantization_witness :
    wq_forward 2 [(1:ℝ)] = some (wq_claim_formula 2 [(1:ℝ)]) :=
  C4_weight_quantization 2 ⟨by norm_num, by norm_num⟩ [(1:ℝ)]
    ⟨1, by simp, by
      have hpos : 0 < Real.tanh 1 := by
        rw [Real.tanh_eq_sinh_div_cosh]
        exact div_pos (Real.sinh_pos_iff.mpr one_pos) (Real.cosh_pos 1)
      exact ne_of_gt hpos⟩

/-- C6: the claim says `weight_quantize_fn(1).forward(w)` is
`sign(w / E) * E` with `E = mean |w|`; but the inner uniform quantizer at
`k = 1` raises `UnboundLocalError` (its `forward` returns the unbound
`out`), so for the weight tensor `[1, -1]` (where `E = 1`) the call
produces no output instead of `[1, -1]`. -/
theorem C6_binary_weight_eval : wq_forward 1 [(1:ℝ), -1] = none := by
  norm_num [wq_forward, qfn_forward]

/-- C10: on the all-zero weight tensor, the data-dependent divisors are
zero — `E = mean |w| = 0` in the `k = 1` branch and `max |tanh w| = 0` in
the `k ∈ [2,8]` branch — and `weight_quantize_fn.forward` has no
zero-divisor check, so the forward call produces no well-defined finite
output. -/
theorem C10_zero_divisor (k : ℤ) (m : ℕ)
    (hk : k = 1 ∨ (2 ≤ k ∧ k ≤ 8)) :
    ((List.replicate (m+1) (0:ℝ)).map (fun w => |w|)).sum
        / (((List.replicate (m+1) (0:ℝ)).length : ℕ) : ℝ) = 0 ∧
    (((List.replicate (m+1) (0:ℝ)).map Real.tanh).map (fun w => |w|)).foldr max 0 = 0 ∧
    wq_forward k (List.replicate (m+1) (0:ℝ)) = none := by
  have hE : ((List.replicate (m+1) (0:ℝ)).map (fun w => |w|)).sum
      / (((List.replicate (m+1) (0:ℝ)).length : ℕ) : ℝ) = 0 := by
    simp [List.map_replicate, List.sum_replicate]
  have hM : (((List.replicate (m+1) (0:ℝ)).map Real.tanh).map (fun w => |w|)).foldr max 0
      = 0 := by
    simp only [List.map_replicate, Real.tanh_zero, abs_zero]
    exact foldr_max_replicate_zero (m+1)
  refine ⟨hE, hM, ?_⟩
  rcases hk with h1 | h2
  · subst h1
    unfold wq_forward
    rw [if_neg (by norm_num), if_pos rfl, if_pos hE]
  · unfold wq_forward
    rw [if_neg (by omega), if_neg (by omega), if_pos hM]

/-- C10 witness: the all-zero singleton tensor at `k = 2`. -/
theorem C10_zero_divisor_witness :
    ((List.replicate 1 (0:ℝ)).map (fun w => |w|)).sum
        / (((List.replicate 1 (0:ℝ)).length : ℕ) : ℝ) = 0 ∧
    (((List.replicate 1 (0:ℝ)).map Real.tanh).map (fun w => |w|)).foldr max 0 = 0 ∧
    wq_forward 2 (List.replicate 1 (0:ℝ)) = none :=
  C10_zero_divisor 2 0 (Or.inr ⟨by norm_num, by norm_num⟩)
